import Mathlib

/-!
Shallow embedding of the algorithmic core of the raycast-maze program
(src/raycast_maze.cpp, with the variant files raycast_maze-v1.cpp and
raycast_maze-all-sdl2-only.cpp embedded where a claim cites them).

Conventions:
  - the C++ `double` values are modelled as exact rationals (ℚ);
  - `std::sqrt` is a parameter `s : ℚ → ℚ` of the collision resolver,
    since only its value at 0 (namely 0) matters for the claims below;
  - the 250x250 `int gameMap[MAP_HEIGHT][MAP_WIDTH]` is a total function
    `ℤ → ℤ → ℤ` indexed as `g x y` for `gameMap[y][x]`;
  - `std::mt19937`-backed draws are modelled by an arbitrary stream of
    naturals: `uniform_int_distribution(0, n-1)(gen)` becomes
    `stream k % n` for the k-th draw, quantified over all streams;
  - `static_cast<int>` on a double truncates toward zero (`castInt`).
-/

namespace RaycastMaze

set_option maxRecDepth 16384

/-- The game map type: `gameMap[y][x]` is `grid x y`; 0 = empty, 1 = wall, 2 = finish. -/
abbrev Grid := ℤ → ℤ → ℤ

/-- A single array store `gameMap[y][x] = v`. -/
def setCell (g : Grid) (x y v : ℤ) : Grid :=
  fun a b => if a = x ∧ b = y then v else g a b

/-- Accessor from the source: out-of-range coordinates read as wall (1). -/
def getCell (g : Grid) (x y : ℤ) : ℤ :=
  if x < 0 ∨ 250 ≤ x ∨ y < 0 ∨ 250 ≤ y then 1 else g x y

/-- C++ `static_cast<int>` applied to a double: truncation toward zero. -/
def castInt (q : ℚ) : ℤ :=
  if 0 ≤ q then ⌊q⌋ else ⌈q⌉

/-! ## Exploration tracker (visitedCells bitmap and distinctVisited counter) -/

/-- The exploration-tracking state: `visitedCells[y][x]` is `visited x y`,
plus the `int distinctVisited` counter. -/
structure TrackState where
  visited : ℤ → ℤ → Bool
  distinctVisited : ℤ

/-- The state produced by `initVisited()`: all-false bitmap, zero counter. -/
def initVisited : TrackState :=
  { visited := fun _ _ => false, distinctVisited := 0 }

/-- The bitmap after marking one cell. -/
def markCell (v : ℤ → ℤ → Bool) (cx cy : ℤ) : ℤ → ℤ → Bool :=
  fun x y => if x = cx ∧ y = cy then true else v x y

/-- `updateVisited(posX, posY)` from raycast_maze.cpp (also the
raycast_maze-all-sdl2-only.cpp version): bounds-checked, marks the cell and
increments the counter only when in range and not yet marked. -/
def updateVisited (posX posY : ℚ) (s : TrackState) : TrackState :=
  if 0 ≤ castInt posX ∧ castInt posX < 250 ∧ 0 ≤ castInt posY ∧ castInt posY < 250 ∧
      s.visited (castInt posX) (castInt posY) = false then
    { visited := markCell s.visited (castInt posX) (castInt posY),
      distinctVisited := s.distinctVisited + 1 }
  else s

/-- `updateVisited` from raycast_maze-v1.cpp: it performs NO bounds check, so an
out-of-range coordinate indexes `visitedCells` outside the array; that access is
undefined behavior, modelled here as `none`. -/
def updateVisited_v1 (posX posY : ℚ) (s : TrackState) : Option TrackState :=
  if 0 ≤ castInt posX ∧ castInt posX < 250 ∧ 0 ≤ castInt posY ∧ castInt posY < 250 then
    some (if s.visited (castInt posX) (castInt posY) = false then
      { visited := markCell s.visited (castInt posX) (castInt posY),
        distinctVisited := s.distinctVisited + 1 }
    else s)
  else none

/-- A sequence of `updateVisited` calls, applied in order. -/
def applyCalls (calls : List (ℚ × ℚ)) (s : TrackState) : TrackState :=
  calls.foldl (fun st c => updateVisited c.1 c.2 st) s

/-- The in-bounds cell coordinates of the 250x250 map, as a finite set. -/
def cellsFinset : Finset (ℤ × ℤ) :=
  Finset.Icc (0 : ℤ) 249 ×ˢ Finset.Icc (0 : ℤ) 249

/-- The number of passable (non-wall) cells of a grid. -/
def passableCount (g : Grid) : ℕ :=
  (cellsFinset.filter (fun c => g c.1 c.2 ≠ 1)).card

/-- The number of marked in-bounds cells of a tracker state. -/
def visitedCard (s : TrackState) : ℕ :=
  (cellsFinset.filter (fun c => s.visited c.1 c.2 = true)).card

/-! ## Collision resolution (resolveCircleCollision) -/

/-- Closest point of the unit cell square `[cx, cx+1] x [cy, cy+1]` to a
center `p`, per axis: `max(cx, min(p, cx+1))`. -/
def closestPoint (p : ℚ × ℚ) (c : ℤ × ℤ) : ℚ × ℚ :=
  (max (c.1 : ℚ) (min p.1 ((c.1 : ℚ) + 1)), max (c.2 : ℚ) (min p.2 ((c.2 : ℚ) + 1)))

/-- Squared distance from the circle center to the cell's closest point. -/
def sqDistToCell (p : ℚ × ℚ) (c : ℤ × ℤ) : ℚ :=
  (p.1 - (closestPoint p c).1) * (p.1 - (closestPoint p c).1) +
    (p.2 - (closestPoint p c).2) * (p.2 - (closestPoint p c).2)

/-- One inner-loop iteration of `resolveCircleCollision` of raycast_maze.cpp for
the cell `c`: only cells read as 1 (wall) through `getCell` are obstacles.
`s` stands for `std::sqrt`. -/
def cellStep (s : ℚ → ℚ) (g : Grid) (hitbox : ℚ) (p : ℚ × ℚ) (c : ℤ × ℤ) : ℚ × ℚ :=
  if getCell g c.1 c.2 = 1 then
    if sqDistToCell p c < hitbox * hitbox then
      if s (sqDistToCell p c) = 0 then
        (p.1, p.2 - (hitbox - s (sqDistToCell p c)))
      else
        (p.1 + (p.1 - (closestPoint p c).1) / s (sqDistToCell p c) *
            (hitbox - s (sqDistToCell p c)),
          p.2 + (p.2 - (closestPoint p c).2) / s (sqDistToCell p c) *
            (hitbox - s (sqDistToCell p c)))
    else p
  else p

/-- One inner-loop iteration of `resolveCircleCollision` of raycast_maze-v1.cpp:
there every cell reading nonzero (`!= 0`, so wall AND finish) is an obstacle. -/
def cellStep_v1 (s : ℚ → ℚ) (g : Grid) (hitbox : ℚ) (p : ℚ × ℚ) (c : ℤ × ℤ) : ℚ × ℚ :=
  if getCell g c.1 c.2 ≠ 0 then
    if sqDistToCell p c < hitbox * hitbox then
      if s (sqDistToCell p c) = 0 then
        (p.1, p.2 - (hitbox - s (sqDistToCell p c)))
      else
        (p.1 + (p.1 - (closestPoint p c).1) / s (sqDistToCell p c) *
            (hitbox - s (sqDistToCell p c)),
          p.2 + (p.2 - (closestPoint p c).2) / s (sqDistToCell p c) *
            (hitbox - s (sqDistToCell p c)))
    else p
  else p

/-- The integers from `a` to `b` inclusive, in increasing order. -/
def intRange (a b : ℤ) : List ℤ :=
  (List.range (b + 1 - a).toNat).map (fun i : ℕ => a + (i : ℤ))

/-- The cell scan order of `resolveCircleCollision`: rows `startY..endY` outer,
columns `startX..endX` inner, ranges computed once from the initial position. -/
def scanCells (p : ℚ × ℚ) (hitbox : ℚ) : List (ℤ × ℤ) :=
  let startX := max 0 ⌊p.1 - hitbox⌋
  let endX := min 249 ⌈p.1 + hitbox⌉
  let startY := max 0 ⌊p.2 - hitbox⌋
  let endY := min 249 ⌈p.2 + hitbox⌉
  (intRange startY endY).flatMap (fun cy => (intRange startX endX).map (fun cx => (cx, cy)))

/-- `resolveCircleCollision` of raycast_maze.cpp: fold the wall-cell pushes over
the scanned cells, the position threading through (the C++ mutates posX/posY). -/
def resolveCircleCollision (s : ℚ → ℚ) (g : Grid) (p : ℚ × ℚ) (hitbox : ℚ) : ℚ × ℚ :=
  (scanCells p hitbox).foldl (cellStep s g hitbox) p

/-- `resolveCircleCollision` of raycast_maze-v1.cpp (nonzero cells block). -/
def resolveCircleCollision_v1 (s : ℚ → ℚ) (g : Grid) (p : ℚ × ℚ) (hitbox : ℚ) : ℚ × ℚ :=
  (scanCells p hitbox).foldl (cellStep_v1 s g hitbox) p

/-! ## DDA raycasting march (main rendering loop, one screen column) -/

/-- The mutable state of the DDA march: current map cell, accumulated side
distances, and the side flag of the last step (0 = X-step, 1 = Y-step). -/
structure DDAState where
  mapX : ℤ
  mapY : ℤ
  sideDistX : ℚ
  sideDistY : ℚ
  side : ℕ

/-- The literal 1e30 used for a zero ray-direction component. -/
def bigDist : ℚ := 10 ^ 30

/-- One iteration of the DDA while-loop body: advance along the axis with the
smaller accumulated side distance. -/
def ddaStep (deltaX deltaY : ℚ) (stepX stepY : ℤ) (s : DDAState) : DDAState :=
  if s.sideDistX < s.sideDistY then
    { mapX := s.mapX + stepX, mapY := s.mapY,
      sideDistX := s.sideDistX + deltaX, sideDistY := s.sideDistY, side := 0 }
  else
    { mapX := s.mapX, mapY := s.mapY + stepY,
      sideDistX := s.sideDistX, sideDistY := s.sideDistY + deltaY, side := 1 }

/-- The `while (!hit)` march: step, then stop at the first cell reading
positive through `getCell`. Fuel-indexed; `dda_march_terminates` below shows
fuel 502 always suffices, so the fueled function coincides with the loop. -/
def ddaLoop (g : Grid) (deltaX deltaY : ℚ) (stepX stepY : ℤ) :
    ℕ → DDAState → Option DDAState
  | 0, _ => none
  | fuel + 1, s =>
    if 0 < getCell g (ddaStep deltaX deltaY stepX stepY s).mapX
        (ddaStep deltaX deltaY stepX stepY s).mapY then
      some (ddaStep deltaX deltaY stepX stepY s)
    else ddaLoop g deltaX deltaY stepX stepY fuel (ddaStep deltaX deltaY stepX stepY s)

/-- Per-axis step distance: `|1/rayDir|`, with 1e30 for a zero component. -/
def deltaDist (rayDir : ℚ) : ℚ :=
  if rayDir = 0 then bigDist else |1 / rayDir|

/-- Step sign of a ray-direction component. -/
def stepSign (rayDir : ℚ) : ℤ :=
  if rayDir < 0 then -1 else 1

/-- Initial side distance along one axis, from position `pos` with starting
map coordinate `m`. -/
def initSideDist (rayDir pos : ℚ) (m : ℤ) : ℚ :=
  if rayDir < 0 then (pos - (m : ℚ)) * deltaDist rayDir
  else (((m : ℚ) + 1) - pos) * deltaDist rayDir

/-- The whole DDA march for one ray from `(posX, posY)` with direction
`(rayDirX, rayDirY)`: setup exactly as in the source, then the fueled loop. -/
def ddaMarch (g : Grid) (posX posY rayDirX rayDirY : ℚ) : Option DDAState :=
  let mapX := castInt posX
  let mapY := castInt posY
  ddaLoop g (deltaDist rayDirX) (deltaDist rayDirY) (stepSign rayDirX) (stepSign rayDirY)
    502
    { mapX := mapX, mapY := mapY,
      sideDistX := initSideDist rayDirX posX mapX,
      sideDistY := initSideDist rayDirY posY mapY, side := 0 }

/-- One column of the raycasting loop: camera-space offset, ray direction,
DDA march, and the perpendicular wall distance of the hit. Returns
`(mapX, mapY, side, perpWallDist)`. -/
def renderRay (g : Grid) (posX posY dirX dirY planeX planeY : ℚ)
    (screenWidth x : ℤ) : Option (ℤ × ℤ × ℕ × ℚ) :=
  let cameraX : ℚ := 2 * (x : ℚ) / (screenWidth : ℚ) - 1
  let rayDirX := dirX + planeX * cameraX
  let rayDirY := dirY + planeY * cameraX
  match ddaMarch g posX posY rayDirX rayDirY with
  | none => none
  | some s =>
    let perp : ℚ :=
      if s.side = 0 then ((s.mapX : ℚ) - posX + (1 - (stepSign rayDirX : ℚ)) / 2) / rayDirX
      else ((s.mapY : ℚ) - posY + (1 - (stepSign rayDirY : ℚ)) / 2) / rayDirY
    some (s.mapX, s.mapY, s.side, perp)

/-! ## Maze generation (generateMaze and placeRandomFinish) -/

/-- The carve directions of `generateMaze`, in source order:
`{0,-2}, {0,2}, {-2,0}, {2,0}` as `(dx, dy)` pairs. -/
def dirs : List (ℤ × ℤ) := [(0, -2), (0, 2), (-2, 0), (2, 0)]

/-- The state of the backtracking loop: the grid, the explicit stack, and the
index of the next random draw. -/
structure CarveState where
  grid : Grid
  stack : List (ℤ × ℤ)
  k : ℕ

/-- The candidate neighbors of the stack top: offsets from `dirs` that land
strictly inside the border and on a still-wall cell, in source order. -/
def neighborsList (g : Grid) (c : ℤ × ℤ) : List (ℤ × ℤ) :=
  (dirs.map (fun d => (c.1 + d.1, c.2 + d.2))).filter
    (fun n => decide (0 < n.1 ∧ n.1 < 249 ∧ 0 < n.2 ∧ n.2 < 249 ∧ g n.1 n.2 = 1))

/-- The neighbor selected by the random draw: index `draw % size` into the
neighbor list (the source draws uniformly from 0 to size-1). -/
def chooseNeighbor (stream : ℕ → ℕ) (s : CarveState) (c : ℤ × ℤ) : ℤ × ℤ :=
  (neighborsList s.grid c).getD (stream s.k % (neighborsList s.grid c).length) (0, 0)

/-- One iteration of the `while (!stack.empty())` body: carve a random
unvisited neighbor (consuming one draw, opening the wall cell between the two
lattice cells, computed with the truncating integer division of the source) or
backtrack. A state with an empty stack is left unchanged. -/
def carveStep (stream : ℕ → ℕ) (s : CarveState) : CarveState :=
  match s.stack with
  | [] => s
  | c :: rest =>
    if neighborsList s.grid c = [] then { s with stack := rest }
    else
      { grid := setCell (setCell s.grid
            (c.1 + ((chooseNeighbor stream s c).1 - c.1) / 2)
            (c.2 + ((chooseNeighbor stream s c).2 - c.2) / 2) 0)
          (chooseNeighbor stream s c).1 (chooseNeighbor stream s c).2 0,
        stack := chooseNeighbor stream s c :: s.stack, k := s.k + 1 }

/-- The fueled backtracking loop. `generateMaze_terminates` below shows the
stack always empties within `mazeFuel` iterations, so this is the loop. -/
def mazeLoop (stream : ℕ → ℕ) : ℕ → CarveState → CarveState
  | 0, s => s
  | fuel + 1, s => if s.stack = [] then s else mazeLoop stream fuel (carveStep stream s)

/-- Initial state: all walls, the start cell (1,1) carved and pushed. -/
def initCarve : CarveState :=
  { grid := setCell (fun _ _ => 1) 1 1 0, stack := [(1, 1)], k := 0 }

/-- An upper bound for the loop length: twice the number of interior lattice
cells (124 * 124 of them) plus one for the initial stack entry. -/
def mazeFuel : ℕ := 2 * (124 * 124) + 1

/-- The border-forcing pass after carving: every cell of column 0, column 249,
row 0 and row 249 is set to wall. -/
def forceBorders (g : Grid) : Grid :=
  fun x y =>
    if ((x = 0 ∨ x = 249) ∧ 0 ≤ y ∧ y < 250) ∨ ((y = 0 ∨ y = 249) ∧ 0 ≤ x ∧ x < 250)
    then 1 else g x y

/-- The border cell chosen by `placeRandomFinish` from its two draws:
`b` selects the border (0 top, 1 bottom, 2 left, 3 right), `o` the offset
in `1 .. 248` along it. -/
def finishCell (b o : ℕ) : ℤ × ℤ :=
  let t : ℤ := 1 + ((o % 248 : ℕ) : ℤ)
  match b % 4 with
  | 0 => (t, 0)
  | 1 => (t, 249)
  | 2 => (0, t)
  | _ => (249, t)

/-- The cell immediately inside the chosen finish border cell, force-opened by
`placeRandomFinish`. -/
def passageCell (b o : ℕ) : ℤ × ℤ :=
  let t : ℤ := 1 + ((o % 248 : ℕ) : ℤ)
  match b % 4 with
  | 0 => (t, 1)
  | 1 => (t, 248)
  | 2 => (1, t)
  | _ => (248, t)

/-- `placeRandomFinish()`: open the passage cell, then mark the finish cell. -/
def placeRandomFinish (b o : ℕ) (g : Grid) : Grid :=
  setCell (setCell g (passageCell b o).1 (passageCell b o).2 0)
    (finishCell b o).1 (finishCell b o).2 2

/-- `generateMaze()` with finish placement enabled: carve, force borders, place
the finish. The maze loop draws from `stream`; `placeRandomFinish` constructs
its own fresh generator in the source, modelled by the separate draws `b, o`. -/
def generateMaze (stream : ℕ → ℕ) (b o : ℕ) : Grid :=
  placeRandomFinish b o (forceBorders (mazeLoop stream mazeFuel initCarve).grid)

/-! ## Flood-fill reachability over empty cells -/

/-- Four-adjacency of grid cells. -/
def adjCell (c d : ℤ × ℤ) : Prop :=
  (c.1 = d.1 ∧ (d.2 = c.2 + 1 ∨ c.2 = d.2 + 1)) ∨
    (c.2 = d.2 ∧ (d.1 = c.1 + 1 ∨ c.1 = d.1 + 1))

/-- One flood-fill step: move to an adjacent cell, both cells empty. -/
def passStep (g : Grid) (c d : ℤ × ℤ) : Prop :=
  adjCell c d ∧ g c.1 c.2 = 0 ∧ g d.1 d.2 = 0

/-- A flood fill started at `a` reaches `b` through empty cells. -/
def Reaches (g : Grid) (a b : ℤ × ℤ) : Prop :=
  Relation.ReflTransGen (passStep g) a b

/-- A cell is passable when its kind is empty or finish. -/
def passableCell (g : Grid) (c : ℤ × ℤ) : Prop :=
  g c.1 c.2 = 0 ∨ g c.1 c.2 = 2

/-- A cell of the outermost ring of the 250x250 map. -/
def onBorder (c : ℤ × ℤ) : Prop :=
  (0 ≤ c.1 ∧ c.1 ≤ 249 ∧ 0 ≤ c.2 ∧ c.2 ≤ 249) ∧
    (c.1 = 0 ∨ c.1 = 249 ∨ c.2 = 0 ∨ c.2 = 249)

/-! ## Concrete inputs used by witnesses and counterexamples -/

/-- A grid whose only non-empty cell is a finish cell at (0,0). -/
def gridFinishOnly : Grid := fun x y => if x = 0 ∧ y = 0 then 2 else 0

/-- The all-wall grid (no passable cell at all). -/
def allWallGrid : Grid := fun _ _ => 1

/-- The 3x3 test scene of the raycasting scenario: walls everywhere except the
single interior cell (1,1); through `getCell` this reads exactly as a 3x3 grid
with an all-wall border and an empty interior. -/
def grid3x3 : Grid := fun x y => if x = 1 ∧ y = 1 then 0 else 1

/-- Remaining in-bounds steps the DDA march can take along each axis before
leaving the 250-cell range, given the per-axis step signs. -/
def ddaCap (stepX stepY : ℤ) (s : DDAState) : ℤ :=
  (if stepX = 1 then 250 - s.mapX else s.mapX + 1) +
    (if stepY = 1 then 250 - s.mapY else s.mapY + 1)

/-- A concrete draw stream for the maze generator: carve straight down column 1
to (1,247), right to (3,247), up to (3,245), right to (5,245), down to (5,247)
(draws 125 and 126 select the second listed neighbor), then always take the
first listed neighbor. It leaves the wall cell (4,247) permanently uncarved. -/
def cexStream : ℕ → ℕ := fun k => if k = 125 ∨ k = 126 then 1 else 0

/-- The loop invariant of the carving loop that the claims rely on: stack cells
are odd-coordinate interior lattice cells already carved, every carved cell is
strictly interior, every carved cell is flood-fill reachable from the start
cell (1,1), and row 248 is never carved. -/
structure CarveInv (s : CarveState) : Prop where
  stackCells : ∀ c ∈ s.stack, c.1 % 2 = 1 ∧ c.2 % 2 = 1 ∧
    0 < c.1 ∧ c.1 < 249 ∧ 0 < c.2 ∧ c.2 < 249 ∧ s.grid c.1 c.2 = 0
  zerosInterior : ∀ x y, s.grid x y = 0 → 0 < x ∧ x < 249 ∧ 0 < y ∧ y < 249
  zerosConn : ∀ x y, s.grid x y = 0 → Reaches s.grid (1, 1) (x, y)
  row248 : ∀ x, s.grid x 248 = 1

/-- The interior lattice cells: odd coordinates in 1..247. -/
def latticeFinset : Finset (ℤ × ℤ) :=
  ((Finset.range 124) ×ˢ (Finset.range 124)).image
    (fun p => ((2 * p.1 + 1 : ℤ), (2 * p.2 + 1 : ℤ)))

/-- The number of not-yet-carved interior lattice cells. -/
def wallLatticeCount (g : Grid) : ℕ :=
  (latticeFinset.filter (fun c => g c.1 c.2 = 1)).card

/-- Decreasing measure of the carving loop. -/
def carveMeasure (s : CarveState) : ℕ :=
  2 * wallLatticeCount s.grid + s.stack.length

/-- The isolation predicate of the connectivity counterexample: the three
carvable neighbors of the bottom passage cell (4,248); once (3,247) and
(5,247) are both carved while (4,247) is still a wall, the wall cell (4,247)
can never be carved. -/
def cexBlocked (s : CarveState) : Prop :=
  s.grid 3 247 = 0 ∧ s.grid 5 247 = 0 ∧ s.grid 4 247 = 1

/-! ## Exploration tracker lemmas -/

lemma updateVisited_count_le (px py : ℚ) (s : TrackState) :
    s.distinctVisited ≤ (updateVisited px py s).distinctVisited := by
  unfold updateVisited
  split
  · simp
  · exact le_refl _

lemma applyCalls_cons (c : ℚ × ℚ) (cs : List (ℚ × ℚ)) (s : TrackState) :
    applyCalls (c :: cs) s = applyCalls cs (updateVisited c.1 c.2 s) := rfl

lemma applyCalls_count_le (calls : List (ℚ × ℚ)) :
    ∀ s : TrackState, s.distinctVisited ≤ (applyCalls calls s).distinctVisited := by
  induction calls with
  | nil => intro s; exact le_refl _
  | cons c cs ih =>
    intro s
    rw [applyCalls_cons]
    exact le_trans (updateVisited_count_le c.1 c.2 s) (ih _)

lemma updateVisited_card (px py : ℚ) (s : TrackState)
    (h : s.distinctVisited = (visitedCard s : ℤ)) :
    (updateVisited px py s).distinctVisited = (visitedCard (updateVisited px py s) : ℤ) := by
  unfold updateVisited
  split
  · rename_i hcond
    obtain ⟨h1, h2, h3, h4, h5⟩ := hcond
    have hmem : (castInt px, castInt py) ∈ cellsFinset := by
      simp only [cellsFinset, Finset.mem_product, Finset.mem_Icc]
      omega
    have hfilter :
        cellsFinset.filter
            (fun c => markCell s.visited (castInt px) (castInt py) c.1 c.2 = true) =
          insert (castInt px, castInt py)
            (cellsFinset.filter (fun c => s.visited c.1 c.2 = true)) := by
      ext c
      simp only [Finset.mem_filter, Finset.mem_insert, markCell]
      constructor
      · rintro ⟨hc, hv⟩
        by_cases hceq : c.1 = castInt px ∧ c.2 = castInt py
        · left
          exact Prod.ext hceq.1 hceq.2
        · right
          rw [if_neg hceq] at hv
          exact ⟨hc, hv⟩
      · rintro (rfl | ⟨hc, hv⟩)
        · exact ⟨hmem, by simp⟩
        · refine ⟨hc, ?_⟩
          split
          · rfl
          · exact hv
    have hnot : (castInt px, castInt py) ∉
        cellsFinset.filter (fun c => s.visited c.1 c.2 = true) := by
      simp only [Finset.mem_filter]
      rintro ⟨-, hv⟩
      rw [h5] at hv
      exact Bool.false_ne_true hv
    simp only [visitedCard, hfilter, Finset.card_insert_of_not_mem hnot, h]
    push_cast
    ring
  · exact h

lemma initVisited_card : initVisited.distinctVisited = (visitedCard initVisited : ℤ) := by
  simp [initVisited, visitedCard]

lemma applyCalls_card (calls : List (ℚ × ℚ)) :
    ∀ s : TrackState, s.distinctVisited = (visitedCard s : ℤ) →
      (applyCalls calls s).distinctVisited = (visitedCard (applyCalls calls s) : ℤ) := by
  induction calls with
  | nil => intro s h; exact h
  | cons c cs ih =>
    intro s h
    rw [applyCalls_cons]
    exact ih _ (updateVisited_card c.1 c.2 s h)

lemma cellsFinset_card : cellsFinset.card = 250 * 250 := by
  simp [cellsFinset]

lemma visitedCard_le (s : TrackState) : visitedCard s ≤ 250 * 250 := by
  calc visitedCard s ≤ cellsFinset.card := Finset.card_filter_le _ _
    _ = 250 * 250 := cellsFinset_card

/-! ## Collision resolver lemmas -/

lemma intRange_bounds {a b x : ℤ} (hx : x ∈ intRange a b) : a ≤ x ∧ x ≤ b := by
  rw [intRange, List.mem_map] at hx
  obtain ⟨i, hi, rfl⟩ := hx
  rw [List.mem_range] at hi
  omega

lemma scanCells_bounds {p : ℚ × ℚ} {hitbox : ℚ} {c : ℤ × ℤ} (hc : c ∈ scanCells p hitbox) :
    0 ≤ c.1 ∧ c.1 ≤ 249 ∧ 0 ≤ c.2 ∧ c.2 ≤ 249 := by
  simp only [scanCells, List.mem_flatMap, List.mem_map] at hc
  obtain ⟨cy, hcy, cx, hcx, rfl⟩ := hc
  have h1 := intRange_bounds hcy
  have h2 := intRange_bounds hcx
  simp only
  omega

lemma getCell_inBounds (g : Grid) {x y : ℤ}
    (h1 : 0 ≤ x) (h2 : x ≤ 249) (h3 : 0 ≤ y) (h4 : y ≤ 249) :
    getCell g x y = g x y := by
  unfold getCell
  rw [if_neg]
  omega

lemma cellStep_skip (s : ℚ → ℚ) (g : Grid) (hitbox : ℚ) (p : ℚ × ℚ) (c : ℤ × ℤ)
    (hb : 0 ≤ c.1 ∧ c.1 ≤ 249 ∧ 0 ≤ c.2 ∧ c.2 ≤ 249)
    (h : g c.1 c.2 = 1 → hitbox * hitbox ≤ sqDistToCell p c) :
    cellStep s g hitbox p c = p := by
  unfold cellStep
  rw [getCell_inBounds g hb.1 hb.2.1 hb.2.2.1 hb.2.2.2]
  split
  · rename_i hw
    rw [if_neg (not_lt.mpr (h hw))]
  · rfl

lemma foldl_cellStep_fixed (s : ℚ → ℚ) (g : Grid) (hitbox : ℚ) (p : ℚ × ℚ)
    (h : ∀ c : ℤ × ℤ, 0 ≤ c.1 → c.1 ≤ 249 → 0 ≤ c.2 → c.2 ≤ 249 → g c.1 c.2 = 1 →
      hitbox * hitbox ≤ sqDistToCell p c) :
    ∀ L : List (ℤ × ℤ), (∀ c ∈ L, 0 ≤ c.1 ∧ c.1 ≤ 249 ∧ 0 ≤ c.2 ∧ c.2 ≤ 249) →
      L.foldl (cellStep s g hitbox) p = p := by
  intro L
  induction L with
  | nil => intro _; rfl
  | cons c cs ih =>
    intro hL
    have hc := hL c (List.mem_cons_self c cs)
    have hskip : cellStep s g hitbox p c = p :=
      cellStep_skip s g hitbox p c hc (h c hc.1 hc.2.1 hc.2.2.1 hc.2.2.2)
    rw [List.foldl_cons, hskip]
    exact ih (fun d hd => hL d (List.mem_cons_of_mem c hd))

/-! ## DDA march lemmas -/

lemma stepSign_cases (r : ℚ) : stepSign r = 1 ∨ stepSign r = -1 := by
  unfold stepSign
  split
  · right; rfl
  · left; rfl

lemma ddaStep_moves (dX dY : ℚ) (sX sY : ℤ) (s : DDAState) :
    (ddaStep dX dY sX sY s).mapX = s.mapX + sX ∧ (ddaStep dX dY sX sY s).mapY = s.mapY ∨
      (ddaStep dX dY sX sY s).mapX = s.mapX ∧ (ddaStep dX dY sX sY s).mapY = s.mapY + sY := by
  unfold ddaStep
  split
  · left; exact ⟨rfl, rfl⟩
  · right; exact ⟨rfl, rfl⟩

lemma ddaLoop_isSome (g : Grid) (dX dY : ℚ) (sX sY : ℤ)
    (hsX : sX = 1 ∨ sX = -1) (hsY : sY = 1 ∨ sY = -1) :
    ∀ (fuel : ℕ) (s : DDAState), (ddaCap sX sY s).toNat < fuel →
      ∃ r, ddaLoop g dX dY sX sY fuel s = some r := by
  intro fuel
  induction fuel with
  | zero => intro s h; exact absurd h (by omega)
  | succ n ih =>
    intro s h
    by_cases hhit : 0 < getCell g (ddaStep dX dY sX sY s).mapX (ddaStep dX dY sX sY s).mapY
    · exact ⟨ddaStep dX dY sX sY s, by rw [ddaLoop, if_pos hhit]⟩
    · rw [ddaLoop, if_neg hhit]
      apply ih
      have hb : ¬((ddaStep dX dY sX sY s).mapX < 0 ∨ 250 ≤ (ddaStep dX dY sX sY s).mapX ∨
          (ddaStep dX dY sX sY s).mapY < 0 ∨ 250 ≤ (ddaStep dX dY sX sY s).mapY) := by
        intro hoob
        exact hhit (by rw [getCell, if_pos hoob]; norm_num)
      push_neg at hb
      have hmv := ddaStep_moves dX dY sX sY s
      unfold ddaCap at h ⊢
      rcases hsX with rfl | rfl <;> rcases hsY with rfl | rfl <;>
          rcases hmv with ⟨e1, e2⟩ | ⟨e1, e2⟩ <;>
          rw [e1, e2] at hb ⊢ <;>
          norm_num at h hb ⊢ <;> omega

lemma ddaCap_le_of_inBounds (sX sY : ℤ) (t : DDAState)
    (hsX : sX = 1 ∨ sX = -1) (hsY : sY = 1 ∨ sY = -1)
    (h1 : 0 ≤ t.mapX) (h2 : t.mapX ≤ 249) (h3 : 0 ≤ t.mapY) (h4 : t.mapY ≤ 249) :
    ddaCap sX sY t ≤ 500 := by
  unfold ddaCap
  rcases hsX with rfl | rfl <;> rcases hsY with rfl | rfl <;> norm_num <;> omega

/-! ## Concrete evaluations used by witnesses and counterexamples -/

lemma scan_half : scanCells ((1 : ℚ) / 2, 1 / 2) (1 / 5) = [(0, 0), (1, 0), (0, 1), (1, 1)] := by
  unfold scanCells
  norm_num
  rw [show (⌈(7 : ℚ) / 10⌉ : ℤ) = 1 from by norm_num [Int.ceil_eq_iff]]
  decide

lemma abs_fifty_over : |(50 : ℚ) / 33| = 50 / 33 := by norm_num

lemma scene_march :
    ddaMarch grid3x3 (3 / 2) (3 / 2) 1 (-(33 / 50)) = some ⟨2, 1, 3 / 2, 25 / 33, 0⟩ := by
  unfold ddaMarch
  rw [show (502 : ℕ) = 501 + 1 from rfl, ddaLoop]
  norm_num [castInt, deltaDist, stepSign, initSideDist, ddaStep, getCell, grid3x3, bigDist,
    abs_fifty_over]

lemma scene_march_plane0 :
    ddaMarch grid3x3 (3 / 2) (3 / 2) 1 0 = some ⟨2, 1, 3 / 2, 10 ^ 30 / 2, 0⟩ := by
  unfold ddaMarch
  rw [show (502 : ℕ) = 501 + 1 from rfl, ddaLoop]
  norm_num [castInt, deltaDist, stepSign, initSideDist, ddaStep, getCell, grid3x3, bigDist]

/-! ## Claim theorems: tracker, collision and raycasting -/

/-- C5 (amended): for the bounds-checked `updateVisited` of raycast_maze.cpp and
raycast_maze-all-sdl2-only.cpp, an in-bounds not-yet-marked cell is marked and
the distinct counter increments by exactly one, while an out-of-bounds or
already-marked coordinate leaves the state entirely unchanged (and the function
is total, so no error is raised).  The raycast_maze-v1.cpp variant is NOT
covered: it has no bounds check, see `updateVisited_v1_oob_cex`. -/
theorem updateVisited_spec_amended :
    ∀ (s : TrackState) (px py : ℚ),
      ((0 ≤ castInt px ∧ castInt px < 250 ∧ 0 ≤ castInt py ∧ castInt py < 250 ∧
          s.visited (castInt px) (castInt py) = false) →
        updateVisited px py s =
          { visited := markCell s.visited (castInt px) (castInt py),
            distinctVisited := s.distinctVisited + 1 }) ∧
      ((¬(0 ≤ castInt px ∧ castInt px < 250 ∧ 0 ≤ castInt py ∧ castInt py < 250) ∨
          s.visited (castInt px) (castInt py) = true) →
        updateVisited px py s = s) := by
  intro s px py
  constructor
  · intro h
    unfold updateVisited
    rw [if_pos ⟨h.1, h.2.1, h.2.2.1, h.2.2.2.1, h.2.2.2.2⟩]
  · intro h
    unfold updateVisited
    rw [if_neg]
    rintro ⟨h1, h2, h3, h4, h5⟩
    rcases h with hoob | hvis
    · exact hoob ⟨h1, h2, h3, h4⟩
    · rw [hvis] at h5
      exact Bool.noConfusion h5

/-- C5 counterexample: the claim asserts an out-of-bounds call is a silent
no-op for `updateVisited`, but the raycast_maze-v1.cpp variant performs no
bounds check at all, so `visitedCells[cellY][cellX]` is an out-of-range array
access (undefined behavior, modelled as `none`) rather than an unchanged
state: at coordinates (300, 5) it does not return the state unchanged. -/
theorem updateVisited_v1_oob_cex :
    updateVisited_v1 300 5 initVisited ≠ some initVisited := by
  have h : updateVisited_v1 300 5 initVisited = none := by
    unfold updateVisited_v1
    rw [if_neg]
    norm_num [castInt]
  rw [h]
  intro hcontra
  exact Option.noConfusion hcontra

/-- C7: in `resolveCircleCollision`, when a wall cell penetrates with the
center-to-closest-point distance exactly zero (so `dist = sqrt 0 = 0` and the
penetration depth is the full hitbox radius), the iteration takes the
`dist == 0` branch and pushes the position along negative Y by the penetration
depth; the normalizing `distX/dist`, `distY/dist` divisions occur only in the
other branch, which requires `dist` nonzero. -/
theorem collision_zero_distance_push (s : ℚ → ℚ) (g : Grid) (hitbox : ℚ)
    (p : ℚ × ℚ) (c : ℤ × ℤ) (hwall : getCell g c.1 c.2 = 1) (hs : s 0 = 0)
    (hzero : sqDistToCell p c = 0) (hpos : 0 < hitbox) :
    cellStep s g hitbox p c = (p.1, p.2 - hitbox) := by
  unfold cellStep
  rw [if_pos hwall, hzero, if_pos (by positivity), hs, if_pos rfl, sub_zero]

/-- C7 witness: a circle of radius 1/5 centered at (1/2, 1/2), inside the wall
cell (0,0), is pushed straight down by the full radius. -/
theorem collision_zero_distance_push_witness :
    cellStep (fun _ => 0) (fun _ _ => 1) (1 / 5) ((1 : ℚ) / 2, 1 / 2) (0, 0) =
      ((1 : ℚ) / 2, 1 / 2 - 1 / 5) :=
  collision_zero_distance_push (fun _ => 0) (fun _ _ => 1) (1 / 5)
    ((1 : ℚ) / 2, 1 / 2) (0, 0) (by decide) rfl
    (by norm_num [sqDistToCell, closestPoint, max_def, min_def]) (by norm_num)

/-- C3 (amended): in raycast_maze.cpp (and raycast_maze-all-sdl2-only.cpp) the
resolver treats exactly the cells reading 1 (wall) as obstacles, so a circle
that overlaps no wall cell of the grid is returned unchanged, for every sqrt
model, position, radius and grid. The raycast_maze-v1.cpp variant is NOT
covered: there any nonzero cell, finish included, blocks; see
`resolve_v1_finish_pushes_cex`. -/
theorem resolve_wall_only_amended (s : ℚ → ℚ) (g : Grid) (p : ℚ × ℚ) (hitbox : ℚ)
    (h : ∀ c : ℤ × ℤ, 0 ≤ c.1 → c.1 ≤ 249 → 0 ≤ c.2 → c.2 ≤ 249 → g c.1 c.2 = 1 →
      hitbox * hitbox ≤ sqDistToCell p c) :
    resolveCircleCollision s g p hitbox = p := by
  unfold resolveCircleCollision
  exact foldl_cellStep_fixed s g hitbox p h (scanCells p hitbox)
    (fun c hc => scanCells_bounds hc)

/-- C3 witness: on the all-empty grid, a circle at (3/2, 3/2) of radius 1/5 is
returned exactly unchanged. -/
theorem resolve_wall_only_witness :
    resolveCircleCollision (fun _ => 0) (fun _ _ => 0) ((3 : ℚ) / 2, 3 / 2) (1 / 5) =
      ((3 : ℚ) / 2, 3 / 2) :=
  resolve_wall_only_amended (fun _ => 0) (fun _ _ => 0) ((3 : ℚ) / 2, 3 / 2) (1 / 5)
    (fun c _ _ _ _ hc => absurd hc (by norm_num))

/-- C3 counterexample: the grid `gridFinishOnly` contains no wall cell at all
(its only nonzero cell is the finish at (0,0)), yet the raycast_maze-v1.cpp
resolver pushes a circle centered at (1/2, 1/2): finish cells do cause a push
in that variant, refuting the claim that only wall cells are obstacles for
every `resolveCircleCollision` of the repository. -/
theorem resolve_v1_finish_pushes_cex :
    (∀ x y : ℤ, gridFinishOnly x y ≠ 1) ∧
      resolveCircleCollision_v1 (fun _ => 0) gridFinishOnly ((1 : ℚ) / 2, 1 / 2) (1 / 5) =
        ((1 : ℚ) / 2, 3 / 10) ∧
      ((1 : ℚ) / 2, (3 : ℚ) / 10) ≠ ((1 : ℚ) / 2, 1 / 2) := by
  refine ⟨?_, ?_, by norm_num [Prod.ext_iff]⟩
  · intro x y
    unfold gridFinishOnly
    split
    · norm_num
    · norm_num
  · unfold resolveCircleCollision_v1
    rw [scan_half]
    norm_num [cellStep_v1, getCell, gridFinishOnly, sqDistToCell, closestPoint,
      max_def, min_def]

/-- C8 (amended): the distinct-visited counter is non-decreasing across any
sequence of `updateVisited` calls; immediately after `initVisited` it is 0; and
it never exceeds the total number of in-bounds cells (250 * 250).  The original
bound by the passable-cell count fails because `updateVisited` never consults
the grid: wall cells count too, see `visited_count_passable_bound_cex`. -/
theorem visited_count_monotone_amended :
    (∀ (calls : List (ℚ × ℚ)) (s : TrackState),
        s.distinctVisited ≤ (applyCalls calls s).distinctVisited) ∧
      initVisited.distinctVisited = 0 ∧
      (∀ calls : List (ℚ × ℚ),
        (applyCalls calls initVisited).distinctVisited ≤ 250 * 250) := by
  refine ⟨fun calls s => applyCalls_count_le calls s, rfl, fun calls => ?_⟩
  have hcard := applyCalls_card calls initVisited initVisited_card
  rw [hcard]
  have := visitedCard_le (applyCalls calls initVisited)
  exact_mod_cast Nat.cast_le.mpr this

/-- C8 counterexample: on the all-wall grid there are zero passable cells, yet
a single `updateVisited` call at (3/2, 3/2) from the reset state raises the
distinct count to 1, exceeding the passable-cell count. -/
theorem visited_count_passable_bound_cex :
    passableCount allWallGrid = 0 ∧
      ((passableCount allWallGrid : ℤ) <
        (applyCalls [((3 : ℚ) / 2, (3 : ℚ) / 2)] initVisited).distinctVisited) := by
  have h0 : passableCount allWallGrid = 0 := by
    unfold passableCount allWallGrid
    simp
  have h1 : (applyCalls [((3 : ℚ) / 2, (3 : ℚ) / 2)] initVisited).distinctVisited = 1 := by
    norm_num [applyCalls, updateVisited, castInt, initVisited]
  rw [h0, h1]
  exact ⟨rfl, by norm_num⟩

/-- C6: in the 3x3 scene (all-wall border, empty interior cell (1,1)), a player
at (1.5, 1.5) facing (1, 0) with screenWidth 1 renders a single ray (column 0,
cameraX = -1) that hits map cell (2, 1) with side flag 0 and perpendicular wall
distance exactly 1/2 — both with the windowed camera plane (0, 0.66) of the
source and with a degenerate zero plane (pure facing-direction ray). -/
theorem raycast_scenario_3x3 :
    renderRay grid3x3 (3 / 2) (3 / 2) 1 0 0 (33 / 50) 1 0 = some (2, 1, 0, 1 / 2) ∧
      renderRay grid3x3 (3 / 2) (3 / 2) 1 0 0 0 1 0 = some (2, 1, 0, 1 / 2) := by
  constructor
  · unfold renderRay
    norm_num [stepSign]
    rw [scene_march]
    norm_num
  · unfold renderRay
    norm_num [stepSign]
    rw [scene_march_plane0]
    norm_num

/-- C10: the DDA march always halts: for every grid, position and ray
direction, 502 iterations suffice to hit a cell reading positive through
`getCell`, because each iteration moves one map coordinate by its fixed step
sign and any out-of-range coordinate reads as wall. -/
theorem dda_march_terminates :
    ∀ (g : Grid) (posX posY rayDirX rayDirY : ℚ),
      ∃ r, ddaMarch g posX posY rayDirX rayDirY = some r := by
  intro g posX posY rdX rdY
  unfold ddaMarch
  have hsX := stepSign_cases rdX
  have hsY := stepSign_cases rdY
  set dX := deltaDist rdX
  set dY := deltaDist rdY
  set sX := stepSign rdX
  set sY := stepSign rdY
  set s0 : DDAState :=
    { mapX := castInt posX, mapY := castInt posY,
      sideDistX := initSideDist rdX posX (castInt posX),
      sideDistY := initSideDist rdY posY (castInt posY), side := 0 }
  show ∃ r, ddaLoop g dX dY sX sY 502 s0 = some r
  by_cases hhit : 0 < getCell g (ddaStep dX dY sX sY s0).mapX (ddaStep dX dY sX sY s0).mapY
  · exact ⟨ddaStep dX dY sX sY s0, by rw [show (502 : ℕ) = 501 + 1 from rfl, ddaLoop, if_pos hhit]⟩
  · rw [show (502 : ℕ) = 501 + 1 from rfl, ddaLoop, if_neg hhit]
    apply ddaLoop_isSome g dX dY sX sY hsX hsY 501
    have hb : ¬((ddaStep dX dY sX sY s0).mapX < 0 ∨ 250 ≤ (ddaStep dX dY sX sY s0).mapX ∨
        (ddaStep dX dY sX sY s0).mapY < 0 ∨ 250 ≤ (ddaStep dX dY sX sY s0).mapY) := by
      intro hoob
      exact hhit (by rw [getCell, if_pos hoob]; norm_num)
    push_neg at hb
    have := ddaCap_le_of_inBounds sX sY (ddaStep dX dY sX sY s0) hsX hsY
      hb.1 (by omega) hb.2.2.1 (by omega)
    omega

/-! ## Maze generation lemmas -/

lemma setCell_apply (g : Grid) (x y v a b : ℤ) :
    setCell g x y v a b = if a = x ∧ b = y then v else g a b := rfl

lemma setCell_zero_keeps {g : Grid} {x y a b : ℤ} (h : g a b = 0) :
    setCell g x y 0 a b = 0 := by
  unfold setCell
  split
  · rfl
  · exact h

lemma setCell_other {g : Grid} {x y v a b : ℤ} (h : ¬(a = x ∧ b = y)) :
    setCell g x y v a b = g a b := if_neg h

lemma prod_ne_of_fst {a : ℤ × ℤ} {x y : ℤ} (h : x ≠ a.1) : (x, y) ≠ a := by
  intro he
  rw [← he] at h
  exact h rfl

lemma prod_ne_of_snd {a : ℤ × ℤ} {x y : ℤ} (h : y ≠ a.2) : (x, y) ≠ a := by
  intro he
  rw [← he] at h
  exact h rfl

lemma mem_neighborsList {g : Grid} {c n : ℤ × ℤ} :
    n ∈ neighborsList g c ↔
      (∃ d ∈ dirs, n = (c.1 + d.1, c.2 + d.2)) ∧
        0 < n.1 ∧ n.1 < 249 ∧ 0 < n.2 ∧ n.2 < 249 ∧ g n.1 n.2 = 1 := by
  unfold neighborsList
  simp only [List.mem_filter, List.mem_map, decide_eq_true_eq]
  constructor
  · rintro ⟨⟨d, hd, rfl⟩, h⟩
    exact ⟨⟨d, hd, rfl⟩, h⟩
  · rintro ⟨⟨d, hd, rfl⟩, h⟩
    exact ⟨⟨d, hd, rfl⟩, h⟩

lemma getD_mod_mem {l : List (ℤ × ℤ)} (h : l ≠ []) (i : ℕ) :
    l.getD (i % l.length) (0, 0) ∈ l := by
  have hlen : 0 < l.length := List.length_pos.mpr h
  have hm : i % l.length < l.length := Nat.mod_lt _ hlen
  rw [List.getD_eq_getElem l (0, 0) hm]
  exact List.getElem_mem hm

lemma chooseNeighbor_mem (stream : ℕ → ℕ) {s : CarveState} {c : ℤ × ℤ}
    (h : neighborsList s.grid c ≠ []) :
    chooseNeighbor stream s c ∈ neighborsList s.grid c :=
  getD_mod_mem h _

lemma Reaches_mono {g g2 : Grid} (h : ∀ x y, g x y = 0 → g2 x y = 0) {a b : ℤ × ℤ}
    (hr : Reaches g a b) : Reaches g2 a b := by
  induction hr with
  | refl => exact Relation.ReflTransGen.refl
  | tail _ hstep ih =>
    obtain ⟨hadj, h1, h2⟩ := hstep
    exact ih.tail ⟨hadj, h _ _ h1, h _ _ h2⟩

lemma mem_latticeFinset {c : ℤ × ℤ} :
    c ∈ latticeFinset ↔
      c.1 % 2 = 1 ∧ c.2 % 2 = 1 ∧ 0 < c.1 ∧ c.1 < 249 ∧ 0 < c.2 ∧ c.2 < 249 := by
  unfold latticeFinset
  simp only [Finset.mem_image, Finset.mem_product, Finset.mem_range]
  constructor
  · rintro ⟨⟨i, j⟩, ⟨hi, hj⟩, rfl⟩
    simp only
    omega
  · rintro ⟨h1, h2, h3, h4, h5, h6⟩
    refine ⟨(((c.1 - 1) / 2).toNat, ((c.2 - 1) / 2).toNat), ⟨?_, ?_⟩, ?_⟩
    · omega
    · omega
    · obtain ⟨a, b⟩ := c
      simp only at h1 h2 h3 h4 h5 h6 ⊢
      rw [Prod.mk.injEq]
      constructor <;> omega

lemma latticeFinset_card : latticeFinset.card = 124 * 124 := by
  unfold latticeFinset
  rw [Finset.card_image_of_injOn]
  · rw [Finset.card_product]
    simp
  · rintro ⟨i, j⟩ hij ⟨k, l⟩ hkl heq
    simp only [Prod.mk.injEq] at heq ⊢
    omega


lemma carveStep_spec (stream : ℕ → ℕ) (s : CarveState) (hinv : CarveInv s) :
    CarveInv (carveStep stream s) ∧
      (s.stack ≠ [] → carveMeasure (carveStep stream s) < carveMeasure s) := by
  rcases hstack : s.stack with _ | ⟨c, rest⟩
  · have hid : carveStep stream s = s := by
      unfold carveStep
      rw [hstack]
    rw [hid]
    exact ⟨hinv, fun hne => absurd rfl hne⟩
  · have hcmem : c ∈ s.stack := by rw [hstack]; exact List.mem_cons_self c rest
    obtain ⟨hco1, hco2, hcb1, hcb2, hcb3, hcb4, hcg⟩ := hinv.stackCells c hcmem
    by_cases hns : neighborsList s.grid c = []
    · have hstep : carveStep stream s = { s with stack := rest } := by
        unfold carveStep
        simp only [hstack]
        rw [if_pos hns]
      rw [hstep]
      refine ⟨⟨?_, hinv.zerosInterior, hinv.zerosConn, hinv.row248⟩, ?_⟩
      · intro m hm
        exact hinv.stackCells m (by rw [hstack]; exact List.mem_cons_of_mem c hm)
      · intro _
        unfold carveMeasure
        simp only [hstack, List.length_cons]
        omega
    · have hmem := chooseNeighbor_mem stream hns
      set n := chooseNeighbor stream s c with hn_def
      rw [mem_neighborsList] at hmem
      obtain ⟨⟨d, hd, hneq⟩, hb1, hb2, hb3, hb4, hg⟩ := hmem
      have e1 : n.1 = c.1 + d.1 := by rw [hneq]
      have e2 : n.2 = c.2 + d.2 := by rw [hneq]
      have hfacts :
          adjCell c (c.1 + (n.1 - c.1) / 2, c.2 + (n.2 - c.2) / 2) ∧
          adjCell (c.1 + (n.1 - c.1) / 2, c.2 + (n.2 - c.2) / 2) n ∧
          (0 < c.1 + (n.1 - c.1) / 2 ∧ c.1 + (n.1 - c.1) / 2 < 249 ∧
            0 < c.2 + (n.2 - c.2) / 2 ∧ c.2 + (n.2 - c.2) / 2 < 249) ∧
          (n.1 % 2 = 1 ∧ n.2 % 2 = 1) ∧
          ((c.1 + (n.1 - c.1) / 2) % 2 = 0 ∨ (c.2 + (n.2 - c.2) / 2) % 2 = 0) ∧
          c.2 + (n.2 - c.2) / 2 ≠ 248 := by
        simp only [dirs, List.mem_cons, List.not_mem_nil, or_false] at hd
        unfold adjCell
        obtain ⟨a, b⟩ := n
        simp only at e1 e2 hb1 hb2 hb3 hb4 ⊢
        rcases hd with rfl | rfl | rfl | rfl <;> simp only at e1 e2 <;> omega
      obtain ⟨fadj1, fadj2, fwint, fnodd, fwpar, fwrow⟩ := hfacts
      have hstep : carveStep stream s =
          { grid := setCell (setCell s.grid
                (c.1 + (n.1 - c.1) / 2) (c.2 + (n.2 - c.2) / 2) 0) n.1 n.2 0,
            stack := n :: s.stack, k := s.k + 1 } := by
        unfold carveStep
        simp only [hstack]
        rw [if_neg hns]
      rw [hstep]
      have hmono : ∀ a b : ℤ, s.grid a b = 0 →
          setCell (setCell s.grid
            (c.1 + (n.1 - c.1) / 2) (c.2 + (n.2 - c.2) / 2) 0) n.1 n.2 0 a b = 0 :=
        fun a b h => setCell_zero_keeps (setCell_zero_keeps h)
      have hg2n : setCell (setCell s.grid
          (c.1 + (n.1 - c.1) / 2) (c.2 + (n.2 - c.2) / 2) 0) n.1 n.2 0 n.1 n.2 = 0 := by
        rw [setCell_apply, if_pos ⟨rfl, rfl⟩]
      have hwne : ¬(c.1 + (n.1 - c.1) / 2 = n.1 ∧ c.2 + (n.2 - c.2) / 2 = n.2) := by
        rintro ⟨hw1, hw2⟩
        rcases fwpar with hp | hp
        · rw [hw1] at hp; omega
        · rw [hw2] at hp; omega
      have hg2w : setCell (setCell s.grid
          (c.1 + (n.1 - c.1) / 2) (c.2 + (n.2 - c.2) / 2) 0) n.1 n.2 0
            (c.1 + (n.1 - c.1) / 2) (c.2 + (n.2 - c.2) / 2) = 0 := by
        rw [setCell_apply, if_neg hwne, setCell_apply, if_pos ⟨rfl, rfl⟩]
      have hg2c : setCell (setCell s.grid
          (c.1 + (n.1 - c.1) / 2) (c.2 + (n.2 - c.2) / 2) 0) n.1 n.2 0 c.1 c.2 = 0 :=
        hmono _ _ hcg
      have hreach_c : Reaches (setCell (setCell s.grid
          (c.1 + (n.1 - c.1) / 2) (c.2 + (n.2 - c.2) / 2) 0) n.1 n.2 0) (1, 1) c :=
        Reaches_mono hmono (hinv.zerosConn c.1 c.2 hcg)
      have hreach_w := hreach_c.tail ⟨fadj1, hg2c, hg2w⟩
      have hreach_n := hreach_w.tail ⟨fadj2, hg2w, hg2n⟩
      constructor
      · refine ⟨?_, ?_, ?_, ?_⟩
        · intro m hm
          dsimp only at hm ⊢
          rcases List.mem_cons.mp hm with rfl | hm2
          · exact ⟨fnodd.1, fnodd.2, hb1, hb2, hb3, hb4, hg2n⟩
          · obtain ⟨q1, q2, q3, q4, q5, q6, q7⟩ := hinv.stackCells m hm2
            exact ⟨q1, q2, q3, q4, q5, q6, hmono _ _ q7⟩
        · intro x y hxy
          dsimp only at hxy
          rw [setCell_apply] at hxy
          split_ifs at hxy with h1
          · omega
          · rw [setCell_apply] at hxy
            split_ifs at hxy with h2
            · omega
            · exact hinv.zerosInterior x y hxy
        · intro x y hxy
          dsimp only at hxy ⊢
          rw [setCell_apply] at hxy
          split_ifs at hxy with h1
          · rw [h1.1, h1.2]
            exact hreach_n
          · rw [setCell_apply] at hxy
            split_ifs at hxy with h2
            · rw [h2.1, h2.2]
              exact hreach_w
            · exact Reaches_mono hmono (hinv.zerosConn x y hxy)
        · intro x
          dsimp only
          rw [setCell_apply, if_neg, setCell_apply, if_neg]
          · exact hinv.row248 x
          · rintro ⟨-, hw⟩
            exact fwrow hw.symm
          · rintro ⟨-, hn2⟩
            omega
      · intro _
        have hnlat : n ∈ latticeFinset :=
          mem_latticeFinset.mpr ⟨fnodd.1, fnodd.2, hb1, hb2, hb3, hb4⟩
        have hwlat : ((c.1 + (n.1 - c.1) / 2, c.2 + (n.2 - c.2) / 2) : ℤ × ℤ) ∉ latticeFinset := by
          rw [mem_latticeFinset]
          simp only
          rintro ⟨hp1, hp2, -⟩
          rcases fwpar with hp | hp <;> omega
        have hmemf : n ∈ latticeFinset.filter (fun m => s.grid m.1 m.2 = 1) :=
          Finset.mem_filter.mpr ⟨hnlat, hg⟩
        have hfilter : latticeFinset.filter (fun m =>
              setCell (setCell s.grid
                (c.1 + (n.1 - c.1) / 2) (c.2 + (n.2 - c.2) / 2) 0) n.1 n.2 0 m.1 m.2 = 1) =
            (latticeFinset.filter (fun m => s.grid m.1 m.2 = 1)).erase n := by
          ext m
          simp only [Finset.mem_filter, Finset.mem_erase]
          constructor
          · rintro ⟨hm, hv⟩
            rw [setCell_apply] at hv
            split_ifs at hv with h1
            · exact absurd hv (by norm_num)
            · rw [setCell_apply] at hv
              split_ifs at hv with h2
              · exact absurd hv (by norm_num)
              · exact ⟨fun he => h1 ⟨congrArg Prod.fst he, congrArg Prod.snd he⟩, hm, hv⟩
          · rintro ⟨hne, hm, hv⟩
            refine ⟨hm, ?_⟩
            rw [setCell_apply, if_neg, setCell_apply, if_neg]
            · exact hv
            · rintro ⟨hw1, hw2⟩
              apply hwlat
              rw [← hw1, ← hw2]
              exact hm
            · rintro ⟨hn1, hn2⟩
              exact hne (Prod.ext hn1 hn2)
        unfold carveMeasure wallLatticeCount
        dsimp only
        rw [hfilter, Finset.card_erase_of_mem hmemf]
        have hpos : 0 < (latticeFinset.filter (fun m => s.grid m.1 m.2 = 1)).card :=
          Finset.card_pos.mpr ⟨n, hmemf⟩
        simp only [hstack, List.length_cons]
        omega



lemma mazeLoop_succ (stream : ℕ → ℕ) (fuel : ℕ) (s : CarveState) :
    mazeLoop stream (fuel + 1) s =
      if s.stack = [] then s else mazeLoop stream fuel (carveStep stream s) := rfl

lemma mazeLoop_of_empty (stream : ℕ → ℕ) (fuel : ℕ) (s : CarveState) (h : s.stack = []) :
    mazeLoop stream fuel s = s := by
  cases fuel with
  | zero => rfl
  | succ n =>
    unfold mazeLoop
    rw [if_pos h]

lemma mazeLoop_inv (stream : ℕ → ℕ) :
    ∀ (fuel : ℕ) (s : CarveState), CarveInv s → CarveInv (mazeLoop stream fuel s) := by
  intro fuel
  induction fuel with
  | zero => intro s h; exact h
  | succ n ih =>
    intro s h
    unfold mazeLoop
    split
    · exact h
    · exact ih _ (carveStep_spec stream s h).1

lemma mazeLoop_stack_empty (stream : ℕ → ℕ) :
    ∀ (fuel : ℕ) (s : CarveState), CarveInv s → carveMeasure s ≤ fuel →
      (mazeLoop stream fuel s).stack = [] := by
  intro fuel
  induction fuel with
  | zero =>
    intro s _ hm
    unfold carveMeasure at hm
    have : s.stack.length = 0 := by omega
    exact List.length_eq_zero.mp this
  | succ n ih =>
    intro s h hm
    unfold mazeLoop
    split
    · assumption
    · rename_i hne
      obtain ⟨hinv2, hdec⟩ := carveStep_spec stream s h
      exact ih _ hinv2 (by have := hdec hne; omega)

lemma mazeLoop_add (stream : ℕ → ℕ) (a b : ℕ) :
    ∀ s : CarveState, mazeLoop stream (a + b) s = mazeLoop stream b (mazeLoop stream a s) := by
  induction a with
  | zero => intro s; rw [Nat.zero_add]; rfl
  | succ m ih =>
    intro s
    rw [show m + 1 + b = (m + b) + 1 from by omega, mazeLoop_succ, mazeLoop_succ]
    by_cases hempty : s.stack = []
    · rw [if_pos hempty, if_pos hempty, mazeLoop_of_empty stream b s hempty]
    · rw [if_neg hempty, if_neg hempty, ih]

lemma carveStep_blocked (stream : ℕ → ℕ) (s : CarveState) (hinv : CarveInv s)
    (hq : cexBlocked s) : cexBlocked (carveStep stream s) := by
  obtain ⟨hq3, hq5, hq4⟩ := hq
  rcases hstack : s.stack with _ | ⟨c, rest⟩
  · have hid : carveStep stream s = s := by
      unfold carveStep
      rw [hstack]
    rw [hid]
    exact ⟨hq3, hq5, hq4⟩
  · have hcmem : c ∈ s.stack := by rw [hstack]; exact List.mem_cons_self c rest
    obtain ⟨hco1, hco2, hcb1, hcb2, hcb3, hcb4, hcg⟩ := hinv.stackCells c hcmem
    by_cases hns : neighborsList s.grid c = []
    · have hstep : carveStep stream s = { s with stack := rest } := by
        unfold carveStep
        simp only [hstack]
        rw [if_pos hns]
      rw [hstep]
      exact ⟨hq3, hq5, hq4⟩
    · have hmem := chooseNeighbor_mem stream hns
      set n := chooseNeighbor stream s c with hn_def
      rw [mem_neighborsList] at hmem
      obtain ⟨⟨d, hd, hneq⟩, hb1, hb2, hb3, hb4, hg⟩ := hmem
      have e1 : n.1 = c.1 + d.1 := by rw [hneq]
      have e2 : n.2 = c.2 + d.2 := by rw [hneq]
      simp only [dirs, List.mem_cons, List.not_mem_nil, or_false] at hd
      have hstep : carveStep stream s =
          { grid := setCell (setCell s.grid
                (c.1 + (n.1 - c.1) / 2) (c.2 + (n.2 - c.2) / 2) 0) n.1 n.2 0,
            stack := n :: s.stack, k := s.k + 1 } := by
        unfold carveStep
        simp only [hstack]
        rw [if_neg hns]
      rw [hstep]
      have hnodd : n.1 % 2 = 1 := by rcases hd with rfl | rfl | rfl | rfl <;> omega
      -- the wall cell is never (4, 247): horizontally it would join (3,247) and
      -- (5,247), already carved, and vertically its column would be even.
      have hwall : ¬(4 = c.1 + (n.1 - c.1) / 2 ∧ 247 = c.2 + (n.2 - c.2) / 2) := by
        rintro ⟨hw1, hw2⟩
        rcases hd with rfl | rfl | rfl | rfl
        · omega
        · omega
        · -- d = (-2, 0): c = (5, 247), n = (3, 247), but grid n = 1 contradicts hq3
          have : c.1 = 5 ∧ c.2 = 247 := by constructor <;> omega
          rw [e1, e2, this.1, this.2] at hg
          norm_num at hg
          rw [hg] at hq3
          norm_num at hq3
        · -- d = (2, 0): c = (3, 247), n = (5, 247), but grid n = 1 contradicts hq5
          have : c.1 = 3 ∧ c.2 = 247 := by constructor <;> omega
          rw [e1, e2, this.1, this.2] at hg
          norm_num at hg
          rw [hg] at hq5
          norm_num at hq5
      refine ⟨setCell_zero_keeps (setCell_zero_keeps hq3),
        setCell_zero_keeps (setCell_zero_keeps hq5), ?_⟩
      dsimp only
      rw [setCell_apply, if_neg, setCell_apply, if_neg]
      · exact hq4
      · exact hwall
      · rintro ⟨hx, -⟩
        omega

lemma mazeLoop_blocked (stream : ℕ → ℕ) :
    ∀ (fuel : ℕ) (s : CarveState), CarveInv s → cexBlocked s →
      cexBlocked (mazeLoop stream fuel s) := by
  intro fuel
  induction fuel with
  | zero => intro s _ hq; exact hq
  | succ n ih =>
    intro s h hq
    unfold mazeLoop
    split
    · exact hq
    · exact ih _ (carveStep_spec stream s h).1 (carveStep_blocked stream s h hq)

lemma initCarve_inv : CarveInv initCarve := by
  constructor
  · intro c hc
    simp only [initCarve, List.mem_singleton] at hc
    subst hc
    refine ⟨by norm_num, by norm_num, by norm_num, by norm_num, by norm_num, by norm_num, ?_⟩
    simp [initCarve, setCell]
  · intro x y h
    simp only [initCarve, setCell] at h
    split_ifs at h with hc
    · omega
    · norm_num at h
  · intro x y h
    simp only [initCarve, setCell] at h
    split_ifs at h with hc
    · obtain ⟨rfl, rfl⟩ := hc
      exact Relation.ReflTransGen.refl
    · norm_num at h
  · intro x
    simp only [initCarve, setCell]
    rw [if_neg]
    rintro ⟨-, h⟩
    norm_num at h

lemma wallLatticeCount_le (g : Grid) : wallLatticeCount g ≤ 124 * 124 := by
  unfold wallLatticeCount
  calc (latticeFinset.filter _).card ≤ latticeFinset.card := Finset.card_filter_le _ _
    _ = 124 * 124 := latticeFinset_card

lemma carveMeasure_def (s : CarveState) :
    carveMeasure s = 2 * wallLatticeCount s.grid + s.stack.length := rfl

lemma initCarve_measure : carveMeasure initCarve ≤ mazeFuel := by
  have h1 : wallLatticeCount initCarve.grid ≤ 124 * 124 := wallLatticeCount_le _
  have h4 : initCarve.stack.length = 1 := rfl
  rw [carveMeasure_def, h4, show mazeFuel = 2 * (124 * 124) + 1 from rfl]
  exact Nat.add_le_add_right (Nat.mul_le_mul_left 2 h1) 1


lemma bmod_cases (b : ℕ) : b % 4 = 0 ∨ b % 4 = 1 ∨ b % 4 = 2 ∨ b % 4 = 3 := by omega

lemma finishCell_onBorder (b o : ℕ) : onBorder (finishCell b o) := by
  unfold finishCell onBorder
  rcases bmod_cases b with h | h | h | h <;> rw [h] <;> dsimp only <;> omega

lemma passageCell_bounds (b o : ℕ) :
    1 ≤ (passageCell b o).1 ∧ (passageCell b o).1 ≤ 248 ∧
      1 ≤ (passageCell b o).2 ∧ (passageCell b o).2 ≤ 248 := by
  unfold passageCell
  rcases bmod_cases b with h | h | h | h <;> rw [h] <;> dsimp only <;> omega

lemma passage_ne_finish (b o : ℕ) :
    ¬((passageCell b o).1 = (finishCell b o).1 ∧ (passageCell b o).2 = (finishCell b o).2) := by
  unfold passageCell finishCell
  rcases bmod_cases b with h | h | h | h <;> rw [h] <;> dsimp only <;> omega

/-- C9: the depth-first backtracking loop of `generateMaze` terminates for
every sequence of random draws: each carve step turns one more interior
lattice cell from wall to empty and each backtrack pops the stack, so the
measure 2*(uncarved lattice cells)+(stack length) strictly decreases and the
stack empties within `mazeFuel` iterations on the 250x250 grid. -/
theorem generateMaze_terminates :
    ∀ stream : ℕ → ℕ, (mazeLoop stream mazeFuel initCarve).stack = [] :=
  fun stream => mazeLoop_stack_empty stream mazeFuel initCarve initCarve_inv initCarve_measure

/-- C2: every grid produced by `generateMaze` with finish placement enabled
has all cells of row 0, row 249, column 0 and column 249 equal to wall,
except exactly one border cell, the finish cell of kind 2, whatever the
random draws. -/
theorem maze_border_invariant :
    ∀ (stream : ℕ → ℕ) (b o : ℕ),
      ∃ f : ℤ × ℤ, onBorder f ∧ generateMaze stream b o f.1 f.2 = 2 ∧
        ∀ c : ℤ × ℤ, onBorder c → c ≠ f → generateMaze stream b o c.1 c.2 = 1 := by
  intro stream b o
  refine ⟨finishCell b o, finishCell_onBorder b o, ?_, ?_⟩
  · unfold generateMaze placeRandomFinish
    rw [setCell_apply, if_pos ⟨rfl, rfl⟩]
  · intro c hcb hcne
    have hne_f : ¬(c.1 = (finishCell b o).1 ∧ c.2 = (finishCell b o).2) := by
      rintro ⟨e1, e2⟩
      exact hcne (Prod.ext e1 e2)
    have hp := passageCell_bounds b o
    obtain ⟨⟨k1, k2, k3, k4⟩, hdisj⟩ := hcb
    have hne_p : ¬(c.1 = (passageCell b o).1 ∧ c.2 = (passageCell b o).2) := by
      rintro ⟨e1, e2⟩
      rcases hdisj with h | h | h | h <;> omega
    unfold generateMaze placeRandomFinish
    rw [setCell_apply, if_neg hne_f, setCell_apply, if_neg hne_p]
    unfold forceBorders
    rw [if_pos]
    rcases hdisj with h | h | h | h
    · exact Or.inl ⟨Or.inl h, k3, by omega⟩
    · exact Or.inl ⟨Or.inr h, k3, by omega⟩
    · exact Or.inr ⟨Or.inl h, k1, by omega⟩
    · exact Or.inr ⟨Or.inr h, k1, by omega⟩

/-- C4: whenever the finish cell is placed, for every random border choice
and offset, the single cell immediately inside the finish border cell is
passable (in fact empty) in the resulting grid. -/
theorem finish_passage_passable :
    ∀ (stream : ℕ → ℕ) (b o : ℕ),
      passableCell (generateMaze stream b o) (passageCell b o) := by
  intro stream b o
  unfold passableCell
  left
  unfold generateMaze placeRandomFinish
  rw [setCell_apply, if_neg (passage_ne_finish b o), setCell_apply, if_pos ⟨rfl, rfl⟩]

/-- C1 (amended): in every generated maze, a flood fill from the start cell
(1,1) reaches every empty cell EXCEPT possibly the force-opened passage cell
next to the finish: that one cell can be isolated (see
`maze_connectivity_cex`), but every other empty cell is reachable, for every
sequence of random draws. -/
theorem maze_connectivity_amended :
    ∀ (stream : ℕ → ℕ) (b o : ℕ),
      {c : ℤ × ℤ | generateMaze stream b o c.1 c.2 = 0 ∧ c ≠ passageCell b o} ⊆
        {c : ℤ × ℤ | Reaches (generateMaze stream b o) (1, 1) c} := by
  intro stream b o c hc
  simp only [Set.mem_setOf_eq] at hc ⊢
  obtain ⟨hc0, hcp⟩ := hc
  have hinv := mazeLoop_inv stream mazeFuel initCarve initCarve_inv
  have hf := finishCell_onBorder b o
  obtain ⟨⟨f1, f2, f3, f4⟩, hfdisj⟩ := hf
  -- the loop grid is 0 at c
  have he : (mazeLoop stream mazeFuel initCarve).grid c.1 c.2 = 0 := by
    unfold generateMaze placeRandomFinish at hc0
    rw [setCell_apply] at hc0
    split_ifs at hc0 with h1
    · norm_num at hc0
    · rw [setCell_apply] at hc0
      split_ifs at hc0 with h2
      · exact absurd (Prod.ext h2.1 h2.2) hcp
      · unfold forceBorders at hc0
        split_ifs at hc0 with h3
        · norm_num at hc0
        · exact hc0
  have hint := hinv.zerosInterior c.1 c.2 he
  -- every loop-grid empty cell stays empty in the final grid
  have hmono : ∀ x y : ℤ, (mazeLoop stream mazeFuel initCarve).grid x y = 0 →
      generateMaze stream b o x y = 0 := by
    intro x y hxy
    have hxyint := hinv.zerosInterior x y hxy
    have hnotf : ¬(x = (finishCell b o).1 ∧ y = (finishCell b o).2) := by
      rintro ⟨rfl, rfl⟩
      rcases hfdisj with h | h | h | h <;> omega
    have hnotb : ¬(((x = 0 ∨ x = 249) ∧ 0 ≤ y ∧ y < 250) ∨
        ((y = 0 ∨ y = 249) ∧ 0 ≤ x ∧ x < 250)) := by
      rintro (⟨h, -⟩ | ⟨h, -⟩) <;> omega
    unfold generateMaze placeRandomFinish
    rw [setCell_apply, if_neg hnotf]
    refine setCell_zero_keeps ?_
    unfold forceBorders
    rw [if_neg hnotb]
    exact hxy
  exact Reaches_mono hmono (hinv.zerosConn c.1 c.2 he)

/-- C1 counterexample: a concrete run of `generateMaze` (draw stream
`cexStream`, finish border BOTTOM, offset 3) that produces an isolated empty
cell. The designed prefix carves column 1 down to (1,247), then (3,247),
(3,245), (5,245), (5,247): once (3,247) and (5,247) are both carved, the wall
cell (4,247) can never be opened, row 248 is never carved at all, and the
bottom finish at (4,249) force-opens the passage cell (4,248), whose four
neighbors all end up non-empty: the flood fill from (1,1) cannot reach it. -/
theorem maze_connectivity_cex :
    generateMaze cexStream 1 3 4 248 = 0 ∧
      ¬ Reaches (generateMaze cexStream 1 3) (1, 1) (4, 248) := by
  have hsplit : mazeLoop cexStream mazeFuel initCarve =
      mazeLoop cexStream 30626 (mazeLoop cexStream 127 initCarve) := by
    rw [show mazeFuel = 127 + 30626 from rfl]
    exact mazeLoop_add cexStream 127 30626 initCarve
  have hinv127 : CarveInv (mazeLoop cexStream 127 initCarve) :=
    mazeLoop_inv cexStream 127 initCarve initCarve_inv
  have hq127 : cexBlocked (mazeLoop cexStream 127 initCarve) := by
    unfold cexBlocked
    refine ⟨by decide, by decide, by decide⟩
  have hinve : CarveInv (mazeLoop cexStream mazeFuel initCarve) := by
    rw [hsplit]
    exact mazeLoop_inv cexStream 30626 _ hinv127
  have hqe : cexBlocked (mazeLoop cexStream mazeFuel initCarve) := by
    rw [hsplit]
    exact mazeLoop_blocked cexStream 30626 _ hinv127 hq127
  have hG : generateMaze cexStream 1 3 =
      setCell (setCell (forceBorders (mazeLoop cexStream mazeFuel initCarve).grid)
        4 248 0) 4 249 2 := by
    unfold generateMaze placeRandomFinish
    rw [show passageCell 1 3 = ((4 : ℤ), (248 : ℤ)) from rfl,
      show finishCell 1 3 = ((4 : ℤ), (249 : ℤ)) from rfl]
  have hnb : ∀ x y : ℤ, 0 < x → x < 249 → 0 < y → y < 249 →
      forceBorders (mazeLoop cexStream mazeFuel initCarve).grid x y =
        (mazeLoop cexStream mazeFuel initCarve).grid x y := by
    intro x y a1 a2 a3 a4
    unfold forceBorders
    rw [if_neg]
    rintro (⟨h, -⟩ | ⟨h, -⟩) <;> omega
  have hv_passage : generateMaze cexStream 1 3 4 248 = 0 := by
    rw [hG, setCell_apply, if_neg (by rintro ⟨-, h⟩; norm_num at h), setCell_apply,
      if_pos ⟨rfl, rfl⟩]
  have hv_finish : generateMaze cexStream 1 3 4 249 = 2 := by
    rw [hG, setCell_apply, if_pos ⟨rfl, rfl⟩]
  have hv_n1 : generateMaze cexStream 1 3 3 248 = 1 := by
    rw [hG, setCell_apply, if_neg (by rintro ⟨h, -⟩; norm_num at h), setCell_apply,
      if_neg (by rintro ⟨h, -⟩; norm_num at h), hnb 3 248 (by norm_num) (by norm_num)
        (by norm_num) (by norm_num)]
    exact hinve.row248 3
  have hv_n2 : generateMaze cexStream 1 3 5 248 = 1 := by
    rw [hG, setCell_apply, if_neg (by rintro ⟨h, -⟩; norm_num at h), setCell_apply,
      if_neg (by rintro ⟨h, -⟩; norm_num at h), hnb 5 248 (by norm_num) (by norm_num)
        (by norm_num) (by norm_num)]
    exact hinve.row248 5
  have hv_n3 : generateMaze cexStream 1 3 4 247 = 1 := by
    rw [hG, setCell_apply, if_neg (by rintro ⟨-, h⟩; norm_num at h), setCell_apply,
      if_neg (by rintro ⟨-, h⟩; norm_num at h), hnb 4 247 (by norm_num) (by norm_num)
        (by norm_num) (by norm_num)]
    exact hqe.2.2
  refine ⟨hv_passage, fun hreach => ?_⟩
  rcases Relation.ReflTransGen.cases_tail hreach with heq | ⟨c, -, hstep⟩
  · rw [Prod.mk.injEq] at heq
    omega
  · obtain ⟨hadj, hc0, -⟩ := hstep
    obtain ⟨c1, c2⟩ := c
    have hcases : (c1 = 4 ∧ c2 = 247) ∨ (c1 = 4 ∧ c2 = 249) ∨
        (c1 = 3 ∧ c2 = 248) ∨ (c1 = 5 ∧ c2 = 248) := by
      unfold adjCell at hadj
      dsimp only at hadj
      omega
    dsimp only at hc0
    rcases hcases with ⟨rfl, rfl⟩ | ⟨rfl, rfl⟩ | ⟨rfl, rfl⟩ | ⟨rfl, rfl⟩
    · rw [hv_n3] at hc0
      norm_num at hc0
    · rw [hv_finish] at hc0
      norm_num at hc0
    · rw [hv_n1] at hc0
      norm_num at hc0
    · rw [hv_n2] at hc0
      norm_num at hc0

end RaycastMaze
